/-
Verification of the text-folding engine of frescobaldi_app/widgets/folding.py
(class Folder).  The document is embedded as a list of lines (each line a
list of characters); the mutable per-line visibility flags, the collapse
marks and the record of markContentsDirty signals form the state.  Machine
integers of the source are Python bignums, embedded as Int/Nat directly.
-/
import Mathlib

set_option maxHeartbeats 1000000

namespace Folding

/-- Fold event constant START of folding.py (the integer 1). -/
def START : Int := 1

/-- Fold event constant STOP of folding.py (the integer -1). -/
def STOP : Int := -1

/-- A document line: its text, as the character list of block.text(). -/
abbrev Line := List Char

/-- The named tuple Level(stop, start) of folding.py. -/
structure Level where
  stop : Int
  start : Int
deriving DecidableEq

/-- Folder.fold_events, default implementation: scan the characters of the
line, yielding START for every opening brace and STOP for every closing
brace, in order; other characters yield nothing. -/
def fold_events (text : Line) : List Int :=
  text.filterMap fun c =>
    if c = '\x7b' then some START
    else if c = '\x7d' then some STOP
    else none

/-- One iteration of the event loop in Folder.fold_level: the accumulator is
the pair (start, stop) of the Python local variables. -/
def fold_level_step (acc : Int × Int) (e : Int) : Int × Int :=
  if e = START then (acc.1 + 1, acc.2)
  else if acc.1 ≠ 0 then (acc.1 - 1, acc.2)
  else (acc.1, acc.2 - 1)

/-- Folder.fold_level: run the event loop over fold_events of the line and
return Level(stop, start); same-line open/close pairs cancel. -/
def fold_level (text : Line) : Level :=
  let p := (fold_events text).foldl fold_level_step (0, 0)
  ⟨p.2, p.1⟩

/-- The value of sum(self.fold_events(block)) for one line. -/
def events_sum (text : Line) : Int := (fold_events text).sum

/-- Folder.depth: sum of the raw fold_events over every line preceding line
i (an invalid line reference, i past the end, has no predecessors to scan
and yields 0, as backwards of an invalid block yields nothing). -/
def depth (doc : List Line) (i : Nat) : Int :=
  if i < doc.length then
    ((List.range i).map fun j => events_sum (doc.getD j [])).sum
  else 0

/-- Modelled from the spec: depth(line) as the spec states it, the sum of
(start + stop) of fold_level taken over every preceding line from the
document start.  Used only as the reference side of the refinement claim
comparing it with the implementation's depth. -/
def depth_spec (doc : List Line) (i : Nat) : Int :=
  ((List.range i).map fun j =>
    (fold_level (doc.getD j [])).start + (fold_level (doc.getD j [])).stop).sum

/-- Number of opening braces in a line. -/
def countOpen (t : Line) : Nat := t.countP fun c => c = '\x7b'

/-- Number of closing braces in a line. -/
def countClose (t : Line) : Nat := t.countP fun c => c = '\x7d'

/-- Result of Folder.region: no enclosing region (Python None), a region
(start line, end line), or the uncaught UnboundLocalError that the source
raises when the forward scan never runs (the queried block is the last one
and an enclosing region was found, so the local variable end is read before
assignment). -/
inductive RRes where
  | noRegion : RRes
  | found : Nat → Nat → RRes
  | crash : RRes
deriving DecidableEq

/-- The loop variables of the backward scan of Folder.region after one
iteration: the start candidate, start_depth, the running count and whether
the iteration hit the break statement. -/
structure BackRes where
  start : Option Nat
  sd : Int
  count : Int
  brk : Bool

/-- One iteration of the backward loop of Folder.region at line b: when the
line opens regions, raise the count by its start, record a new maximum as
the start candidate and break once the count exceeds a non-negative depth
cap; then add the line's stop to the count. -/
def region_back_step (doc : List Line) (d : Int) (b : Nat) (count : Int)
    (start : Option Nat) (sd : Int) : BackRes :=
  let l := fold_level (doc.getD b [])
  if l.start ≠ 0 then
    let c1 := count + l.start
    if c1 > sd then
      if c1 > d ∧ d > -1 then ⟨some b, c1, c1, true⟩
      else ⟨some b, c1, c1 + l.stop, false⟩
    else ⟨start, sd, c1 + l.stop, false⟩
  else ⟨start, sd, count + l.stop, false⟩

/-- The backward loop of Folder.region, scanning lines b, b-1, ..., 0 unless
it breaks; returns the final (start, start_depth). -/
def region_back (doc : List Line) (d : Int) : Nat → Int → Option Nat → Int →
    Option Nat × Int
  | 0, count, start, sd =>
    let r := region_back_step doc d 0 count start sd
    (r.start, r.sd)
  | b + 1, count, start, sd =>
    let r := region_back_step doc d (b + 1) count start sd
    if r.brk then (r.start, r.sd) else region_back doc d b r.count r.start r.sd

/-- The forward loop of Folder.region from line e with the given running
count; fuel bounds the remaining valid lines (doc.length - e at call sites),
so running out of fuel is the loop exhausting the document (none). -/
def region_fwd (doc : List Line) : Nat → Nat → Int → Option Nat
  | 0, _, _ => none
  | fuel + 1, e, count =>
    let l := fold_level (doc.getD e [])
    if count ≤ -l.stop then some e
    else region_fwd doc fuel (e + 1) (count + l.stop + l.start)

/-- Folder.region: backward scan for the start line under the depth cap,
then forward scan from the next line for the matching end; a query past the
document end finds no start; when the forward loop never runs (the queried
line is the last one) the source raises UnboundLocalError on reading end. -/
def region (doc : List Line) (i : Nat) (d : Int) : RRes :=
  if i < doc.length then
    match region_back doc d i 0 none 0 with
    | (none, _) => .noRegion
    | (some s, sd) =>
      if i + 1 < doc.length then
        match region_fwd doc (doc.length - (i + 1)) (i + 1) sd with
        | some e => .found s e
        | none => .found s (doc.length - 1)
      else .crash
  else .noRegion

/-- Mutable document state: per-line visibility flags, the collapse marks
(modelled from the spec: the mark() hook of spec section 4.1 and the design
notes as an injectable per-line boolean store; the default implementation in
the source stores nothing, i.e. the all-false store), and the list of spans
signalled via markContentsDirty. -/
structure FoldSt where
  vis : List Bool
  marks : List Bool
  dirty : List (Nat × Nat)
deriving DecidableEq

/-- block.isVisible() for line i; modelled from the spec: an invalid block
reference reads as visible, per the toolkit's defaults. -/
def visAt (s : FoldSt) (i : Nat) : Bool := s.vis.getD i true

/-- Reading the collapse mark of line i (mark(block) with no state value). -/
def markGet (s : FoldSt) (i : Nat) : Bool := s.marks.getD i false

/-- block.setVisible(v) for line i. -/
def setVis (s : FoldSt) (i : Nat) (v : Bool) : FoldSt :=
  { s with vis := s.vis.set i v }

/-- Writing the collapse mark of line i (mark(block, state)). -/
def setMark (s : FoldSt) (i : Nat) (v : Bool) : FoldSt :=
  { s with marks := s.marks.set i v }

/-- block.position() of line i: offset of the line start, each earlier line
contributing its length plus one separator. -/
def blockPos (doc : List Line) (i : Nat) : Nat :=
  ((List.range i).map fun j => (doc.getD j []).length + 1).sum

/-- The adjusted end of Folder.fold: r.end.previous() if the end line itself
starts a new region, else r.end. -/
def foldEnd (doc : List Line) (re : Nat) : Nat :=
  if (fold_level (doc.getD re [])).start ≠ 0 then re - 1 else re

/-- The hiding loop of Folder.fold: set lines a, a+1, ..., a+cnt-1
invisible. -/
def hideRange (s : FoldSt) : Nat → Nat → FoldSt
  | _, 0 => s
  | a, cnt + 1 => hideRange (setVis s a false) (a + 1) cnt

/-- Folder.fold: resolve the region; on None return silently, on the
source's crash report the error; otherwise hide every line after the start
line through the adjusted end inclusive, set the start line's mark and
signal the dirty span.  The Bool of the result records whether the uncaught
exception of region escaped. -/
def fold (doc : List Line) (s : FoldSt) (i : Nat) (d : Int) : FoldSt × Bool :=
  match region doc i d with
  | .crash => (s, true)
  | .noRegion => (s, false)
  | .found rs re =>
    let e := foldEnd doc re
    let s1 := hideRange s (rs + 1) (e + 1 - (rs + 1))
    let s2 := setMark s1 rs true
    ({ s2 with dirty := s2.dirty ++ [(blockPos doc rs, blockPos doc e)] }, false)

/-- The inner skip loop of Folder.unfold: advance the shared block iterator
(cursor c, bounded by re and the document length) past a collapsed
sub-region using the stop-count matching of region; returns the cursor
position after the loop (the matching line is consumed by the break).  The
fuel bounds the iterations; doc.length + 1 is always enough. -/
def skip_walk (doc : List Line) (re : Nat) : Nat → Nat → Int → Nat
  | 0, c, _ => c
  | fuel + 1, c, count =>
    if c < doc.length ∧ c ≤ re then
      let l := fold_level (doc.getD c [])
      if count ≤ -l.stop then c + 1
      else skip_walk doc re fuel (c + 1) (count + l.stop + l.start)
    else c

/-- The main loop of Folder.unfold over the shared iterator of the span
lines rs..re: for a line other than the two region bounds that starts a
sub-region, with full clear its mark, otherwise skip the sub-region when its
mark is set; then make the current line visible and continue at the cursor
left by the skip.  The fuel bounds the iterations; doc.length + 1 is always
enough. -/
def unfold_walk (doc : List Line) (rs re : Nat) (full : Bool) :
    Nat → Nat → FoldSt → FoldSt
  | 0, _, s => s
  | fuel + 1, c, s =>
    if c < doc.length ∧ c ≤ re then
      let l := fold_level (doc.getD c [])
      let sc : FoldSt × Nat :=
        if c ≠ rs ∧ c ≠ re ∧ l.start ≠ 0 then
          if full then (setMark s c false, c + 1)
          else if markGet s c then
            (s, skip_walk doc re (doc.length + 1) (c + 1) l.start)
          else (s, c + 1)
        else (s, c + 1)
      unfold_walk doc rs re full fuel sc.2 (setVis sc.1 c true)
    else s

/-- Folder.unfold: resolve the region; on None return silently, on the
source's crash report the error; otherwise walk the span making lines
visible (skipping collapsed sub-regions unless full), clear the start
line's mark and signal the dirty span. -/
def unfold (doc : List Line) (s : FoldSt) (i : Nat) (d : Int) (full : Bool) :
    FoldSt × Bool :=
  match region doc i d with
  | .crash => (s, true)
  | .noRegion => (s, false)
  | .found rs re =>
    let s1 := unfold_walk doc rs re full (doc.length + 1) rs s
    let s2 := setMark s1 rs false
    ({ s2 with dirty := s2.dirty ++ [(blockPos doc rs, blockPos doc re)] }, false)

/-- The loop of Folder.fold_all over all lines from index i: skip invisible
lines, fold (at depth 0) every visible line that starts a region; an escaped
exception of fold aborts the loop.  Fuel is doc.length - i at call sites. -/
def fold_all_aux (doc : List Line) : Nat → Nat → FoldSt → FoldSt × Bool
  | 0, _, s => (s, false)
  | fuel + 1, i, s =>
    if i < doc.length then
      if visAt s i = false then fold_all_aux doc fuel (i + 1) s
      else if (fold_level (doc.getD i [])).start ≠ 0 then
        match fold doc s i 0 with
        | (s2, true) => (s2, true)
        | (s2, false) => fold_all_aux doc fuel (i + 1) s2
      else fold_all_aux doc fuel (i + 1) s
    else (s, false)

/-- Folder.fold_all: fold every currently visible line that starts a
region, in document order. -/
def fold_all (doc : List Line) (s : FoldSt) : FoldSt × Bool :=
  fold_all_aux doc doc.length 0 s

/-- The loop of Folder.unfold_all over all lines from index i, carrying the
first/last changed lines for the final dirty signal. -/
def unfold_all_aux (doc : List Line) :
    Nat → Nat → FoldSt → Option (Nat × Nat) → FoldSt × Option (Nat × Nat)
  | 0, _, s, fl => (s, fl)
  | fuel + 1, i, s, fl =>
    if i < doc.length then
      let s1 := if (fold_level (doc.getD i [])).start ≠ 0
        then setMark s i false else s
      if visAt s1 i = false then
        let fl2 : Option (Nat × Nat) := match fl with
          | none => some (i, i)
          | some (f, _) => some (f, i)
        unfold_all_aux doc fuel (i + 1) (setVis s1 i true) fl2
      else unfold_all_aux doc fuel (i + 1) s1 fl
    else (s, fl)

/-- Folder.unfold_all: clear the mark of every region-starting line, make
every invisible line visible, and signal one dirty span from the first to
the last changed line (none when nothing changed). -/
def unfold_all (doc : List Line) (s : FoldSt) : FoldSt :=
  match unfold_all_aux doc doc.length 0 s none with
  | (s1, none) => s1
  | (s1, some (f, l)) =>
    { s1 with dirty := s1.dirty ++ [(blockPos doc f, blockPos doc l)] }

/-- The loop of Folder.ensure_visible: for d descending from k-1 to 0,
unfold at depth limit d and stop once the line is visible; an escaped
exception of unfold aborts the loop. -/
def ensure_visible_loop (doc : List Line) (i : Nat) :
    Nat → FoldSt → FoldSt × Bool
  | 0, s => (s, false)
  | k + 1, s =>
    match unfold doc s i (k : Int) false with
    | (s1, true) => (s1, true)
    | (s1, false) =>
      if visAt s1 i then (s1, false)
      else ensure_visible_loop doc i k s1

/-- Folder.ensure_visible: a visible line returns at once; otherwise unfold
with depth limits depth(line)-1 down to 0, stopping as soon as the line
becomes visible. -/
def ensure_visible (doc : List Line) (s : FoldSt) (i : Nat) : FoldSt × Bool :=
  if visAt s i then (s, false)
  else ensure_visible_loop doc i (depth doc i).toNat s

/-- The four-line document of the spec's property 2. -/
def doc4 : List Line :=
  ["a \x7b".toList, "b \x7b".toList, "c \x7d".toList, "d \x7d".toList]

/-- A three-line document whose region end line does not open a region. -/
def docC2 : List Line := ["a \x7b".toList, "b".toList, "\x7d".toList]

/-- A five-line document with a nested sub-region. -/
def docC6 : List Line :=
  ["\x7b".toList, "\x7b".toList, "x".toList, "\x7d".toList, "\x7d".toList]

/-- A seven-line document with a line nested three folds deep. -/
def doc7 : List Line :=
  ["\x7b".toList, "\x7b".toList, "\x7b".toList, "x".toList,
   "\x7d".toList, "\x7d".toList, "\x7d".toList]

/-- A one-line document with no fold events. -/
def doc1 : List Line := ["a".toList]

/-- The fresh state for an n-line document: every line visible, no marks,
nothing signalled. -/
def st0 (n : Nat) : FoldSt :=
  ⟨List.replicate n true, List.replicate n false, []⟩

/-- A one-line state whose line is hidden. -/
def stH1 : FoldSt := ⟨[false], [false], []⟩

/-- A state for docC6 with every line visible and the inner region's
opening line marked collapsed. -/
def stC6v : FoldSt :=
  ⟨[true, true, true, true, true], [false, true, false, false, false], []⟩

/-- A state for docC6 after folding: only line 0 visible, both regions
marked. -/
def stC6f : FoldSt :=
  ⟨[true, false, false, false, false], [true, true, false, false, false], []⟩

/-- A state for doc7 with everything after line 0 hidden and the middle
region's opening line marked collapsed. -/
def st7 : FoldSt :=
  ⟨[true, false, false, false, false, false, false],
   [false, true, false, false, false, false, false], []⟩

/-- Reading an updated list: the written value inside bounds, the old value
elsewhere. -/
theorem getD_set (l : List Bool) (i j : Nat) (v d : Bool) :
    (l.set i v).getD j d = if i = j ∧ i < l.length then v else l.getD j d := by
  induction l generalizing i j with
  | nil => simp [List.set]
  | cons a t ih =>
    cases i with
    | zero => cases j <;> simp
    | succ i =>
      cases j with
      | zero => simp
      | succ j =>
        simp only [List.set_cons_succ, List.getD_cons_succ, ih i j,
          List.length_cons]
        by_cases h1 : i = j <;> by_cases h2 : i < t.length <;>
          simp [h1, h2]

/-- Every line of a fresh state is visible. -/
theorem visAt_st0 (n j : Nat) : visAt (st0 n) j = true := by
  unfold visAt st0
  simp

/-- No line of a fresh state carries a collapse mark. -/
theorem markGet_st0 (n j : Nat) : markGet (st0 n) j = false := by
  unfold markGet st0
  simp

/-- Every event of the default rule is START or STOP. -/
theorem fold_events_mem (t : Line) (e : Int) (he : e ∈ fold_events t) :
    e = START ∨ e = STOP := by
  simp only [fold_events, List.mem_filterMap] at he
  obtain ⟨c, _, hc⟩ := he
  split_ifs at hc <;> simp_all

/-- Running the fold_level loop changes start + stop by the event sum. -/
theorem foldl_step_sum (evs : List Int)
    (h : ∀ e ∈ evs, e = START ∨ e = STOP) (p : Int × Int) :
    (evs.foldl fold_level_step p).1 + (evs.foldl fold_level_step p).2 =
      p.1 + p.2 + evs.sum := by
  induction evs generalizing p with
  | nil => simp
  | cons e tl ih =>
    have he := h e (List.mem_cons_self e tl)
    have htl : ∀ x ∈ tl, x = START ∨ x = STOP := fun x hx =>
      h x (List.mem_cons_of_mem e hx)
    simp only [List.foldl_cons, List.sum_cons]
    rw [ih htl]
    rcases he with h1 | h1 <;> subst h1 <;>
      simp [fold_level_step, START, STOP] <;>
      first
      | omega
      | (split_ifs <;> simp <;> omega)

/-- The raw event sum of a line equals start + stop of its fold_level: the
same-line pairs that fold_level cancels contribute zero to both sides. -/
theorem events_sum_eq (t : Line) :
    events_sum t = (fold_level t).start + (fold_level t).stop := by
  have h := foldl_step_sum (fold_events t) (fold_events_mem t) (0, 0)
  have h2 : (fold_level t).start =
      ((fold_events t).foldl fold_level_step (0, 0)).1 := rfl
  have h3 : (fold_level t).stop =
      ((fold_events t).foldl fold_level_step (0, 0)).2 := rfl
  have h4 : events_sum t = (fold_events t).sum := rfl
  rw [h2, h3, h4]
  omega

/-- Running the fold_level loop over a line in which no prefix closes more
braces than it opens: the loop only increments start, never touches stop. -/
theorem run_bal (t : Line) :
    ∀ st sp : Int, 0 ≤ st →
      (∀ k : Nat, 0 ≤ st + countOpen (t.take k) - countClose (t.take k)) →
      (fold_events t).foldl fold_level_step (st, sp) =
        (st + countOpen t - countClose t, sp) := by
  induction t with
  | nil => intro st sp h0 hpre; simp [fold_events, countOpen, countClose]
  | cons c tl ih =>
    intro st sp h0 hpre
    by_cases hob : c = '\x7b'
    · subst hob
      have hev : fold_events ('\x7b' :: tl) = START :: fold_events tl := by
        simp [fold_events]
      have hpre' : ∀ k : Nat,
          0 ≤ (st + 1) + countOpen (tl.take k) - countClose (tl.take k) := by
        intro k
        have hk := hpre (k + 1)
        simp only [List.take_succ_cons, countOpen, countClose,
          List.countP_cons] at hk ⊢
        simp at hk
        omega
      rw [hev]
      simp only [List.foldl_cons]
      have hstep : fold_level_step (st, sp) START = (st + 1, sp) := by
        simp [fold_level_step]
      rw [hstep, ih (st + 1) sp (by omega) hpre']
      simp only [countOpen, countClose, List.countP_cons]
      simp
      omega
    · by_cases hcb : c = '\x7d'
      · subst hcb
        have hev : fold_events ('\x7d' :: tl) = STOP :: fold_events tl := by
          simp [fold_events]
        have hst : 1 ≤ st := by
          have hk := hpre 1
          simp only [List.take_succ_cons, List.take_zero, countOpen,
            countClose, List.countP_cons, List.countP_nil] at hk
          simp at hk
          omega
        have hpre' : ∀ k : Nat,
            0 ≤ (st - 1) + countOpen (tl.take k) - countClose (tl.take k) := by
          intro k
          have hk := hpre (k + 1)
          simp only [List.take_succ_cons, countOpen, countClose,
            List.countP_cons] at hk ⊢
          simp at hk
          omega
        have hstep : fold_level_step (st, sp) STOP = (st - 1, sp) := by
          have hne : st ≠ 0 := by omega
          simp [fold_level_step, STOP, START, hne]
        rw [hev]
        simp only [List.foldl_cons]
        rw [hstep, ih (st - 1) sp (by omega) hpre']
        simp only [countOpen, countClose, List.countP_cons]
        simp
        omega
      · have hev : fold_events (c :: tl) = fold_events tl := by
          simp [fold_events, hob, hcb]
        have hpre' : ∀ k : Nat,
            0 ≤ st + countOpen (tl.take k) - countClose (tl.take k) := by
          intro k
          have hk := hpre (k + 1)
          simp only [List.take_succ_cons, countOpen, countClose,
            List.countP_cons] at hk ⊢
          simp [hob, hcb] at hk
          omega
        rw [hev, ih st sp h0 hpre']
        simp only [countOpen, countClose, List.countP_cons]
        simp [hob, hcb]

theorem vis_length_setVis (s : FoldSt) (i : Nat) (v : Bool) :
    (setVis s i v).vis.length = s.vis.length := by
  simp [setVis]

theorem vis_length_setMark (s : FoldSt) (i : Nat) (v : Bool) :
    (setMark s i v).vis.length = s.vis.length := rfl

theorem vis_length_hideRange (cnt a : Nat) (s : FoldSt) :
    (hideRange s a cnt).vis.length = s.vis.length := by
  induction cnt generalizing a s with
  | zero => rfl
  | succ cnt ih => simp [hideRange, ih, vis_length_setVis]

theorem vis_length_unfold_walk (doc : List Line) (rs re : Nat) (full : Bool)
    (fuel c : Nat) (s : FoldSt) :
    (unfold_walk doc rs re full fuel c s).vis.length = s.vis.length := by
  induction fuel generalizing c s with
  | zero => rfl
  | succ fuel ih =>
    unfold unfold_walk
    split
    · rw [ih]
      split_ifs <;> simp [setVis, setMark]
    · rfl

theorem vis_length_fold (doc : List Line) (s : FoldSt) (i : Nat) (d : Int) :
    (fold doc s i d).1.vis.length = s.vis.length := by
  unfold fold
  split <;> simp [vis_length_hideRange, setMark]

theorem vis_length_unfold (doc : List Line) (s : FoldSt) (i : Nat) (d : Int)
    (full : Bool) : (unfold doc s i d full).1.vis.length = s.vis.length := by
  unfold Folding.unfold
  split <;> simp [vis_length_unfold_walk, setMark]

theorem vis_length_fold_all_aux (doc : List Line) (fuel i : Nat) (s : FoldSt) :
    (fold_all_aux doc fuel i s).1.vis.length = s.vis.length := by
  induction fuel generalizing i s with
  | zero => rfl
  | succ fuel ih =>
    unfold fold_all_aux
    split
    · split
      · exact ih (i + 1) s
      · split
        · split
          next s2 h =>
            have := vis_length_fold doc s i 0
            rw [h] at this
            simpa using this
          next s2 h =>
            have := vis_length_fold doc s i 0
            rw [h] at this
            simp at this
            rw [ih (i + 1) s2, this]
        · exact ih (i + 1) s
    · rfl

theorem vis_length_unfold_all_aux (doc : List Line) (fuel i : Nat)
    (s : FoldSt) (fl : Option (Nat × Nat)) :
    (unfold_all_aux doc fuel i s fl).1.vis.length = s.vis.length := by
  induction fuel generalizing i s fl with
  | zero => rfl
  | succ fuel ih =>
    unfold unfold_all_aux
    dsimp only
    split
    · split_ifs <;> rw [ih] <;> simp [setVis, setMark]
    · rfl

/-- Reading visibility after the hiding loop: false inside the hidden range
(within the list bounds), unchanged elsewhere. -/
theorem visAt_hideRange (cnt : Nat) :
    ∀ (a : Nat) (s : FoldSt) (j : Nat),
      visAt (hideRange s a cnt) j =
        if a ≤ j ∧ j < a + cnt ∧ j < s.vis.length then false else visAt s j := by
  induction cnt with
  | zero =>
    intro a s j
    rw [if_neg (by omega)]
    rfl
  | succ cnt ih =>
    intro a s j
    have hr : hideRange s a (cnt + 1) = hideRange (setVis s a false) (a + 1) cnt :=
      rfl
    have hlen : (setVis s a false).vis.length = s.vis.length := by simp [setVis]
    have hv : visAt (setVis s a false) j =
        if a = j ∧ a < s.vis.length then false else visAt s j := by
      simp only [visAt, setVis]
      exact getD_set s.vis a j false true
    rw [hr, ih, hlen, hv]
    split_ifs <;> first | rfl | omega

/-- The unfold walk never hides a line: any line visible before stays
visible. -/
theorem unfold_walk_mono (doc : List Line) (rs re : Nat) (full : Bool) :
    ∀ (fuel c : Nat) (s : FoldSt) (j : Nat), visAt s j = true →
      visAt (unfold_walk doc rs re full fuel c s) j = true := by
  intro fuel
  induction fuel with
  | zero => intro c s j h; exact h
  | succ fuel ih =>
    intro c s j h
    rw [unfold_walk]
    split
    · apply ih
      have hvis : ∀ x : FoldSt, x.vis = s.vis → visAt (setVis x c true) j = true := by
        intro x hx
        simp only [visAt, setVis, hx]
        rw [getD_set]
        split_ifs with hc
        · rfl
        · exact h
      split_ifs <;> exact hvis _ rfl
    · exact h

/-- Visibility after the unfold walk from cursor c: every span line from the
cursor on is visible, every other line unchanged.  When full is false the
state must carry no collapse marks (so the skip branch is never taken). -/
theorem unfold_walk_vis_char (doc : List Line) (rs re : Nat) (full : Bool)
    (hre : re < doc.length) :
    ∀ (fuel c : Nat) (s : FoldSt), doc.length + 1 ≤ fuel + c →
      s.vis.length = doc.length →
      (full = false → ∀ j, markGet s j = false) →
      ∀ j, visAt (unfold_walk doc rs re full fuel c s) j =
        if c ≤ j ∧ j ≤ re then true else visAt s j := by
  intro fuel
  induction fuel with
  | zero =>
    intro c s hfc hv hmk j
    split_ifs with hcj
    · omega
    · rfl
  | succ fuel ih =>
    intro c s hfc hv hmk j
    rw [unfold_walk]
    split
    next hg =>
      dsimp only
      by_cases hcond : c ≠ rs ∧ c ≠ re ∧ (fold_level (doc.getD c [])).start ≠ 0
      · rw [if_pos hcond]
        by_cases hfull : full = true
        · rw [if_pos hfull]
          rw [ih (c + 1) (setVis (setMark s c false) c true) (by omega)
            (by simp [setVis, setMark, hv])
            (fun hf => absurd hfull (by simp [hf])) j]
          by_cases hj : c = j
          · subst hj
            rw [if_neg (by omega), if_pos ⟨le_refl c, hg.2⟩]
            simp only [visAt, setVis, setMark]
            rw [getD_set]
            rw [if_pos ⟨rfl, by simpa [hv] using hg.1⟩]
          · have he : (c + 1 ≤ j ∧ j ≤ re) ↔ (c ≤ j ∧ j ≤ re) := by omega
            have hsv : visAt (setVis (setMark s c false) c true) j = visAt s j := by
              simp only [visAt, setVis, setMark]
              rw [getD_set]
              rw [if_neg (by simp [hj])]
            rw [hsv, if_congr he rfl rfl]
        · rw [if_neg hfull]
          have hmf : markGet s c = false := hmk (by simpa using hfull) c
          rw [hmf, if_neg (show ¬(false = true) by decide)]
          rw [ih (c + 1) (setVis s c true) (by omega) (by simp [setVis, hv])
            (fun _ j2 => by
              have := hmk (by simpa using hfull) j2
              simpa [setVis, markGet] using this) j]
          by_cases hj : c = j
          · subst hj
            rw [if_neg (by omega), if_pos ⟨le_refl c, hg.2⟩]
            simp only [visAt, setVis]
            rw [getD_set]
            rw [if_pos ⟨rfl, by simpa [hv] using hg.1⟩]
          · have he : (c + 1 ≤ j ∧ j ≤ re) ↔ (c ≤ j ∧ j ≤ re) := by omega
            have hsv : visAt (setVis s c true) j = visAt s j := by
              simp only [visAt, setVis]
              rw [getD_set]
              rw [if_neg (by simp [hj])]
            rw [hsv, if_congr he rfl rfl]
      · rw [if_neg hcond]
        rw [ih (c + 1) (setVis s c true) (by omega) (by simp [setVis, hv])
          (fun hf j2 => by
            have := hmk hf j2
            simpa [setVis, markGet] using this) j]
        by_cases hj : c = j
        · subst hj
          rw [if_neg (by omega), if_pos ⟨le_refl c, hg.2⟩]
          simp only [visAt, setVis]
          rw [getD_set]
          rw [if_pos ⟨rfl, by simpa [hv] using hg.1⟩]
        · have he : (c + 1 ≤ j ∧ j ≤ re) ↔ (c ≤ j ∧ j ≤ re) := by omega
          have hsv : visAt (setVis s c true) j = visAt s j := by
            simp only [visAt, setVis]
            rw [getD_set]
            rw [if_neg (by simp [hj])]
          rw [hsv, if_congr he rfl rfl]
    next hg =>
      split_ifs with hcj
      · exact absurd hg (by push_neg; omega)
      · rfl

/-- Clearing a mark always reads back false (a position past the store's
end reads the default). -/
theorem markGet_setMark_self (s : FoldSt) (i : Nat) :
    markGet (setMark s i false) i = false := by
  simp only [markGet, setMark]
  rw [getD_set]
  split_ifs with h
  · rfl
  · exact List.getD_eq_default _ _ (by omega)

/-- One backward iteration leaves the start candidate or moves it to the
current line. -/
theorem region_back_step_cases (doc : List Line) (d : Int) (b : Nat)
    (count : Int) (start : Option Nat) (sd : Int) :
    (region_back_step doc d b count start sd).start = start ∨
    (region_back_step doc d b count start sd).start = some b := by
  unfold region_back_step
  dsimp only
  split_ifs <;> simp

/-- The backward scan only returns a start at or below its starting line,
unless it merely passes the incoming candidate through. -/
theorem region_back_le (doc : List Line) (d : Int) :
    ∀ (b : Nat) (count : Int) (start : Option Nat) (sd : Int) (r : Nat),
      (region_back doc d b count start sd).1 = some r →
      start = some r ∨ r ≤ b := by
  intro b
  induction b with
  | zero =>
    intro count start sd r h
    have h1 : (region_back doc d 0 count start sd).1 =
        (region_back_step doc d 0 count start sd).start := rfl
    rw [h1] at h
    rcases region_back_step_cases doc d 0 count start sd with h2 | h2 <;>
      rw [h2] at h
    · exact Or.inl h
    · exact Or.inr (by injection h with h3; omega)
  | succ b ih =>
    intro count start sd r h
    have heq : region_back doc d (b + 1) count start sd =
        if (region_back_step doc d (b + 1) count start sd).brk then
          ((region_back_step doc d (b + 1) count start sd).start,
           (region_back_step doc d (b + 1) count start sd).sd)
        else region_back doc d b (region_back_step doc d (b + 1) count start sd).count
          (region_back_step doc d (b + 1) count start sd).start
          (region_back_step doc d (b + 1) count start sd).sd := rfl
    rw [heq] at h
    by_cases hbr : (region_back_step doc d (b + 1) count start sd).brk = true
    · rw [if_pos hbr] at h
      dsimp only at h
      rcases region_back_step_cases doc d (b + 1) count start sd with h2 | h2 <;>
        rw [h2] at h
      · exact Or.inl h
      · exact Or.inr (by injection h with h3; omega)
    · rw [if_neg hbr] at h
      rcases ih _ _ _ r h with h2 | h2
      · rcases region_back_step_cases doc d (b + 1) count start sd with h3 | h3 <;>
          rw [h3] at h2
        · exact Or.inl h2
        · exact Or.inr (by injection h2 with h4; omega)
      · exact Or.inr (by omega)

/-- The forward scan answers within its fuel window. -/
theorem region_fwd_bounds (doc : List Line) :
    ∀ (fuel e : Nat) (count : Int) (r : Nat),
      region_fwd doc fuel e count = some r → e ≤ r ∧ r < e + fuel := by
  intro fuel
  induction fuel with
  | zero => intro e count r h; exact absurd h (by simp [region_fwd])
  | succ fuel ih =>
    intro e count r h
    rw [region_fwd] at h
    try dsimp only at h
    split_ifs at h with hc
    · have h2 := Option.some.inj h
      omega
    · have h2 := ih (e + 1) _ r h
      omega

/-- A found region brackets the queried line and ends inside the
document. -/
theorem region_bounds (doc : List Line) (i : Nat) (d : Int) (rs re : Nat)
    (h : region doc i d = .found rs re) :
    rs ≤ i ∧ i < re ∧ re < doc.length := by
  unfold region at h
  by_cases hi : i < doc.length
  · rw [if_pos hi] at h
    rcases hb : region_back doc d i 0 none 0 with ⟨st, sd⟩
    rw [hb] at h
    cases st with
    | none => simp at h
    | some s0 =>
      dsimp only at h
      have hle : s0 ≤ i := by
        rcases region_back_le doc d i 0 none 0 s0 (by rw [hb]) with h2 | h2
        · exact absurd h2 (by simp)
        · exact h2
      by_cases hi1 : i + 1 < doc.length
      · rw [if_pos hi1] at h
        rcases hf : region_fwd doc (doc.length - (i + 1)) (i + 1) sd with _ | e
        · rw [hf] at h
          dsimp only at h
          simp only [RRes.found.injEq] at h
          obtain ⟨rfl, rfl⟩ := h
          omega
        · rw [hf] at h
          dsimp only at h
          simp only [RRes.found.injEq] at h
          obtain ⟨rfl, rfl⟩ := h
          have h2 := region_fwd_bounds doc _ _ _ _ hf
          omega
      · rw [if_neg hi1] at h
        simp at h
  · rw [if_neg hi] at h
    simp at h

/-- Visibility after Folder.unfold resolving a region: every line of the
span visible, every other line unchanged; for a non-full unfold the state
must carry no collapse marks. -/
theorem visAt_unfold_found (doc : List Line) (s : FoldSt) (i : Nat) (d : Int)
    (full : Bool) (rs re : Nat) (hr : region doc i d = .found rs re)
    (hv : s.vis.length = doc.length)
    (hmk : full = false → ∀ j, markGet s j = false) (j : Nat) :
    visAt (unfold doc s i d full).1 j =
      if rs ≤ j ∧ j ≤ re then true else visAt s j := by
  have hre : re < doc.length := (region_bounds doc i d rs re hr).2.2
  unfold Folding.unfold
  rw [hr]
  have h := unfold_walk_vis_char doc rs re full hre (doc.length + 1) rs s
    (by omega) hv hmk j
  exact h

/-- Folder.unfold never hides a line, whatever the state, the arguments and
the outcome (silent, crash, or a resolved region). -/
theorem unfold_mono (doc : List Line) (s : FoldSt) (i : Nat) (d : Int)
    (full : Bool) (j : Nat) (h : visAt s j = true) :
    visAt (unfold doc s i d full).1 j = true := by
  unfold Folding.unfold
  cases hr : region doc i d with
  | crash => exact h
  | noRegion => exact h
  | found rs re =>
    exact unfold_walk_mono doc rs re full (doc.length + 1) rs s j h

/-- Visibility after Folder.fold resolving a region: the lines after the
start line through the adjusted end are hidden, all other lines keep their
previous visibility. -/
theorem visAt_fold_found (doc : List Line) (s : FoldSt) (i : Nat) (d : Int)
    (rs re : Nat) (hr : region doc i d = .found rs re)
    (hv : s.vis.length = doc.length) (j : Nat) :
    visAt (fold doc s i d).1 j =
      if rs + 1 ≤ j ∧ j ≤ foldEnd doc re then false else visAt s j := by
  have hb := region_bounds doc i d rs re hr
  have hfe1 : rs ≤ foldEnd doc re := by unfold foldEnd; split_ifs <;> omega
  have hfe2 : foldEnd doc re < doc.length := by unfold foldEnd; split_ifs <;> omega
  have hiff : ((rs + 1) ≤ j ∧ j < (rs + 1) + (foldEnd doc re + 1 - (rs + 1)) ∧
      j < doc.length) ↔ (rs + 1 ≤ j ∧ j ≤ foldEnd doc re) := by omega
  unfold fold
  rw [hr]
  show visAt (hideRange s (rs + 1) (foldEnd doc re + 1 - (rs + 1))) j = _
  rw [visAt_hideRange, hv, if_congr hiff rfl rfl]

/-- After Folder.unfold resolves a region, the start line's mark reads
cleared. -/
theorem markGet_unfold_found (doc : List Line) (s : FoldSt) (i : Nat)
    (d : Int) (full : Bool) (rs re : Nat)
    (hr : region doc i d = .found rs re) :
    markGet (unfold doc s i d full).1 rs = false := by
  unfold Folding.unfold
  rw [hr]
  exact markGet_setMark_self _ rs

/-- The unfold_all loop never hides a line. -/
theorem unfold_all_aux_mono (doc : List Line) :
    ∀ (fuel i : Nat) (s : FoldSt) (fl : Option (Nat × Nat)) (j : Nat),
      visAt s j = true →
      visAt (unfold_all_aux doc fuel i s fl).1 j = true := by
  intro fuel
  induction fuel with
  | zero => intro i s fl j h; exact h
  | succ fuel ih =>
    intro i s fl j h
    unfold unfold_all_aux
    dsimp only
    have hs1 : ∀ x : FoldSt, x.vis = s.vis → visAt (setVis x i true) j = true := by
      intro x hx
      simp only [visAt, setVis, hx]
      rw [getD_set]
      split_ifs with hc
      · rfl
      · exact h
    split_ifs with h1 h2 h3
    · exact ih _ _ _ _ (hs1 _ rfl)
    · exact ih _ _ _ _ h
    · exact ih _ _ _ _ (hs1 _ rfl)
    · exact ih _ _ _ _ h
    · exact h

/-- The unfold_all loop makes every document line from its cursor on
visible. -/
theorem unfold_all_aux_vis (doc : List Line) :
    ∀ (fuel i : Nat) (s : FoldSt) (fl : Option (Nat × Nat)),
      doc.length ≤ fuel + i →
      ∀ j, i ≤ j → j < doc.length →
        visAt (unfold_all_aux doc fuel i s fl).1 j = true := by
  intro fuel
  induction fuel with
  | zero => intro i s fl hf j hij hjn; omega
  | succ fuel ih =>
    intro i s fl hf j hij hjn
    unfold unfold_all_aux
    dsimp only
    rw [if_pos (by omega : i < doc.length)]
    by_cases hj : j = i
    · subst hj
      split_ifs with h1 h2 h3
      · apply unfold_all_aux_mono
        simp only [visAt, setMark] at h2
        have hlen : j < s.vis.length := by
          by_contra hc
          rw [List.getD_eq_default _ _ (by omega)] at h2
          exact absurd h2 (by simp)
        simp only [visAt, setVis, setMark]
        rw [getD_set, if_pos ⟨rfl, hlen⟩]
      · apply unfold_all_aux_mono
        simp only [Bool.not_eq_false] at h2
        exact h2
      · apply unfold_all_aux_mono
        simp only [visAt] at h3
        have hlen : j < s.vis.length := by
          by_contra hc
          rw [List.getD_eq_default _ _ (by omega)] at h3
          exact absurd h3 (by simp)
        simp only [visAt, setVis]
        rw [getD_set, if_pos ⟨rfl, hlen⟩]
      · apply unfold_all_aux_mono
        simp only [Bool.not_eq_false] at h3
        exact h3
    · split_ifs with h1 h2 h3 <;> exact ih (i + 1) _ _ (by omega) j (by omega) hjn

/-- unfold_all's final dirty signal does not change visibility. -/
theorem visAt_unfold_all (doc : List Line) (s : FoldSt) (j : Nat) :
    visAt (unfold_all doc s) j =
      visAt (unfold_all_aux doc doc.length 0 s none).1 j := by
  unfold unfold_all
  rcases h : unfold_all_aux doc doc.length 0 s none with ⟨s1, fl⟩
  cases fl with
  | none => rfl
  | some p => rcases p with ⟨f, l⟩; rfl

/-- unfold_all preserves the length of the visibility store. -/
theorem vis_length_unfold_all (doc : List Line) (s : FoldSt) :
    (unfold_all doc s).vis.length = s.vis.length := by
  unfold unfold_all
  rcases h : unfold_all_aux doc doc.length 0 s none with ⟨s1, fl⟩
  have hl := vis_length_unfold_all_aux doc doc.length 0 s none
  rw [h] at hl
  cases fl with
  | none => exact hl
  | some p => rcases p with ⟨f, l⟩; exact hl

/-- C1: for the document ["a \x7b", "b \x7b", "c \x7d", "d \x7d"] under
the default brace rule, depth of lines 0..3 is 0, 1, 2, 1; region(1, 0) is
(line 1, line 2) and region(1, -1) is (line 0, line 3). -/
theorem C1_doc4_depth_region :
    depth doc4 0 = 0 ∧ depth doc4 1 = 1 ∧ depth doc4 2 = 2 ∧
    depth doc4 3 = 1 ∧ region doc4 1 0 = .found 1 2 ∧
    region doc4 1 (-1) = .found 0 3 := by decide

/-- C2 counterexample: in the all-visible three-line document
["a \x7b", "b", "\x7d"], fold(1, 0) resolves the region (0, 2) whose end
line opens no region, and hides the end line 2 — so fold does not leave the
region's end_line visible. -/
theorem C2_counterexample :
    region docC2 1 0 = .found 0 2 ∧
    (fold_level (docC2.getD 2 [])).start = 0 ∧
    visAt (st0 3) 2 = true ∧
    visAt (fold docC2 (st0 3) 1 0).1 2 = false := by decide

/-- C2 (amended): fold sets visible = false on exactly the lines after
start_line through the adjusted end line — the end line itself is hidden
too unless it opens a new region, in which case hiding stops one line
earlier — and leaves start_line untouched; a subsequent unfold of the same
region with full = true sets every line of the span visible, leaves lines
outside the span unchanged and clears the start line's collapse mark. -/
theorem C2_amended_fold_unfold (doc : List Line) (s : FoldSt) (i : Nat)
    (d : Int) (rs re : Nat) (hv : s.vis.length = doc.length)
    (hr : region doc i d = .found rs re) :
    (∀ j, rs + 1 ≤ j → j ≤ foldEnd doc re →
      visAt (fold doc s i d).1 j = false) ∧
    (∀ j, j ≤ rs ∨ foldEnd doc re < j →
      visAt (fold doc s i d).1 j = visAt s j) ∧
    (∀ j, rs ≤ j → j ≤ re →
      visAt (unfold doc (fold doc s i d).1 i d true).1 j = true) ∧
    (∀ j, j < rs ∨ re < j →
      visAt (unfold doc (fold doc s i d).1 i d true).1 j =
        visAt (fold doc s i d).1 j) ∧
    markGet (unfold doc (fold doc s i d).1 i d true).1 rs = false := by
  refine ⟨?_, ?_, ?_, ?_, ?_⟩
  · intro j h1 h2
    rw [visAt_fold_found doc s i d rs re hr hv j, if_pos ⟨h1, h2⟩]
  · intro j hj
    rw [visAt_fold_found doc s i d rs re hr hv j, if_neg (by omega)]
  · intro j h1 h2
    rw [visAt_unfold_found doc _ i d true rs re hr
      ((vis_length_fold doc s i d).trans hv) (fun h => nomatch h) j,
      if_pos ⟨h1, h2⟩]
  · intro j hj
    rw [visAt_unfold_found doc _ i d true rs re hr
      ((vis_length_fold doc s i d).trans hv) (fun h => nomatch h) j,
      if_neg (by omega)]
  · exact markGet_unfold_found doc _ i d true rs re hr

/-- C2 amended, witnessed on the three-line document: after fold(1, 0) and
unfold(1, 0, full) the end line 2 of the span is visible again. -/
theorem C2_amended_witness :
    visAt (unfold docC2 (fold docC2 (st0 3) 1 0).1 1 0 true).1 2 = true :=
  (C2_amended_fold_unfold docC2 (st0 3) 1 0 0 2 (by decide)
    (by decide)).2.2.1 2 (by decide) (by decide)

/-- C3 counterexample: the line "\x7d\x7b" has one brace of each kind but
its fold_level is (-1, 1), not (0, 0). -/
theorem C3_counterexample :
    countOpen "\x7d\x7b".toList = countClose "\x7d\x7b".toList ∧
    fold_level "\x7d\x7b".toList ≠ ⟨0, 0⟩ := by decide

/-- C3 (amended): for every single line with equally many opening and
closing braces in which no prefix closes more braces than it opens,
fold_level is (0, 0). -/
theorem C3_amended_fold_level (t : Line)
    (hpre : ∀ k, k ≤ t.length →
      (countClose (t.take k) : Int) ≤ countOpen (t.take k))
    (heq : countOpen t = countClose t) : fold_level t = ⟨0, 0⟩ := by
  have hpre2 : ∀ k : Nat,
      0 ≤ (0 : Int) + countOpen (t.take k) - countClose (t.take k) := by
    intro k
    by_cases hk : k ≤ t.length
    · have := hpre k hk
      omega
    · rw [List.take_of_length_le (by omega)]
      omega
  have hrun := run_bal t 0 0 le_rfl hpre2
  have hface : fold_level t =
      ⟨((fold_events t).foldl fold_level_step (0, 0)).2,
       ((fold_events t).foldl fold_level_step (0, 0)).1⟩ := rfl
  rw [hface, hrun]
  dsimp only
  simp only [Level.mk.injEq, true_and]
  omega

/-- C3 amended, witnessed on the line containing one balanced brace
pair. -/
theorem C3_amended_witness : fold_level "\x7b\x7d".toList = ⟨0, 0⟩ :=
  C3_amended_fold_level "\x7b\x7d".toList (by decide) (by decide)

/-- C4: for every line of the document, depth as implemented (summing raw
fold_events over preceding lines) equals the spec's sum of
fold_level start + stop over preceding lines. -/
theorem C4_depth_refines_spec (doc : List Line) (i : Nat)
    (h : i < doc.length) : depth doc i = depth_spec doc i := by
  unfold depth depth_spec
  rw [if_pos h]
  simp only [events_sum_eq]

/-- C4 witnessed at line 2 of the four-line document. -/
theorem C4_witness : depth doc4 2 = depth_spec doc4 2 :=
  C4_depth_refines_spec doc4 2 (by decide)

/-- C5 counterexample: a document whose only line starts out hidden:
fold_all changes nothing, but unfold_all forces the line visible, so the
round trip does not restore the original visibility. -/
theorem C5_counterexample :
    (fold_all doc1 stH1).1 = stH1 ∧
    visAt stH1 0 = false ∧
    visAt (unfold_all doc1 (fold_all doc1 stH1).1) 0 = true := by decide

/-- C5 (amended): for every document all of whose lines are initially
visible, fold_all followed by unfold_all restores every line's original
visibility (unfold_all ends with every line visible whatever states
fold_all produced, even when it aborted on region's error). -/
theorem C5_amended_roundtrip (doc : List Line) (s : FoldSt)
    (hv : s.vis.length = doc.length)
    (hall : ∀ j, j < doc.length → visAt s j = true) (j : Nat) :
    visAt (unfold_all doc (fold_all doc s).1) j = visAt s j := by
  by_cases hj : j < doc.length
  · rw [hall j hj, visAt_unfold_all]
    exact unfold_all_aux_vis doc doc.length 0 _ none (by omega) j
      (by omega) hj
  · have hl : (unfold_all doc (fold_all doc s).1).vis.length = doc.length := by
      rw [vis_length_unfold_all]
      exact (vis_length_fold_all_aux doc doc.length 0 s).trans hv
    have h1 : visAt (unfold_all doc (fold_all doc s).1) j = true := by
      unfold visAt
      exact List.getD_eq_default _ _ (by omega)
    have h2 : visAt s j = true := by
      unfold visAt
      exact List.getD_eq_default _ _ (by omega)
    rw [h1, h2]

/-- C5 amended, witnessed on the four-line document. -/
theorem C5_amended_witness :
    visAt (unfold_all doc4 (fold_all doc4 (st0 4)).1) 2 = visAt (st0 4) 2 :=
  C5_amended_roundtrip doc4 (st0 4) (by decide) (by decide) 2

/-- C6 counterexample: in the all-visible five-line document the inner
sub-region (1, 3) is marked collapsed, yet after unfold(0, 0, false) its
interior line 2 is still visible — the skip leaves lines as they were, it
does not re-hide them. -/
theorem C6_counterexample :
    region docC6 0 0 = .found 0 4 ∧
    region docC6 1 0 = .found 1 3 ∧
    markGet stC6v 1 = true ∧
    visAt stC6v 2 = true ∧
    visAt (unfold docC6 stC6v 0 0 false).1 2 = true := by decide

/-- C6 (amended): during unfold(line, 0, false) a sub-region whose opening
line carries a truthy mark is skipped, its lines after the opening line
keeping their previous visibility — they stay hidden exactly when they were
hidden, and are never actively hidden by the call; when no line carries a
truthy mark the whole span becomes visible; concretely, on the folded
five-line document with the inner region marked, the inner lines 2 and 3
stay hidden while lines 0, 1 and 4 are revealed. -/
theorem C6_amended_unfold_marks :
    (∀ (doc : List Line) (s : FoldSt) (i rs re : Nat),
      s.vis.length = doc.length → region doc i 0 = .found rs re →
      (∀ j, markGet s j = false) →
      ∀ j, rs ≤ j → j ≤ re → visAt (unfold doc s i 0 false).1 j = true) ∧
    (∀ (doc : List Line) (s : FoldSt) (i : Nat) (d : Int) (full : Bool)
      (j : Nat), visAt s j = true →
      visAt (unfold doc s i d full).1 j = true) ∧
    ((unfold docC6 stC6f 0 0 false).1.vis =
      [true, true, false, false, true] ∧ markGet stC6f 1 = true ∧
      visAt stC6f 2 = false) := by
  refine ⟨?_, ?_, by decide⟩
  · intro doc s i rs re hv hr hmk j h1 h2
    rw [visAt_unfold_found doc s i 0 false rs re hr hv (fun _ => hmk) j,
      if_pos ⟨h1, h2⟩]
  · intro doc s i d full j h
    exact unfold_mono doc s i d full j h

/-- C6 amended, witnessed: with no marks at all, unfold(0, 0, false) on the
five-line document reveals line 3 of the span. -/
theorem C6_amended_witness :
    visAt (unfold docC6 (st0 5) 0 0 false).1 3 = true :=
  C6_amended_unfold_marks.1 docC6 (st0 5) 0 0 4 (by decide) (by decide)
    (fun j => markGet_st0 5 j) 3 (by decide) (by decide)

/-- C7: a line reference past the document end yields no region; whenever
region yields none, fold and unfold return silently with the state — its
visibility flags, collapse marks and dirty signals — completely unchanged
and no error raised. -/
theorem C7_no_region_noop (doc : List Line) (i : Nat) (d : Int) (s : FoldSt)
    (full : Bool) :
    (doc.length ≤ i → region doc i d = .noRegion) ∧
    (region doc i d = .noRegion →
      fold doc s i d = (s, false) ∧ unfold doc s i d full = (s, false)) := by
  constructor
  · intro hi
    unfold region
    rw [if_neg (by omega)]
  · intro hr
    constructor
    · unfold fold
      rw [hr]
    · unfold Folding.unfold
      rw [hr]

/-- C7 witnessed at line 5 of a one-line document. -/
theorem C7_witness :
    region doc1 5 0 = .noRegion ∧
    fold doc1 (st0 1) 5 0 = (st0 1, false) ∧
    unfold doc1 (st0 1) 5 0 false = (st0 1, false) :=
  ⟨(C7_no_region_noop doc1 5 0 (st0 1) false).1 (by decide),
   ((C7_no_region_noop doc1 5 0 (st0 1) false).2 (by decide)).1,
   ((C7_no_region_noop doc1 5 0 (st0 1) false).2 (by decide)).2⟩

/-- C8 counterexample: a hidden line whose depth is 0: the unfold chain of
ensure_visible is empty, the call is a no-op and the line stays hidden —
the claim's "the line ends visible" fails. -/
theorem C8_counterexample :
    visAt stH1 0 = false ∧
    depth doc1 0 = 0 ∧
    ensure_visible doc1 stH1 0 = (stH1, false) ∧
    visAt (ensure_visible doc1 stH1 0).1 0 = false := by decide

/-- C8 (amended): ensure_visible on a visible line is a no-op — state,
marks and signals unchanged; on a hidden line it unfolds with depth limits
descending from depth(line) - 1 down to 0, stopping once the line is
visible, but when depth(line) ≤ 0 the chain is empty and the hidden line
stays hidden with the state unchanged; on the seven-line document with
line 3 nested three folds deep and the middle region marked, the call ends
with line 3 (and the whole document) visible. -/
theorem C8_amended_ensure_visible :
    (∀ (doc : List Line) (s : FoldSt) (i : Nat),
      visAt s i = true → ensure_visible doc s i = (s, false)) ∧
    (∀ (doc : List Line) (s : FoldSt) (i : Nat),
      visAt s i = false → depth doc i ≤ 0 →
      ensure_visible doc s i = (s, false)) ∧
    ((ensure_visible doc7 st7 3).1.vis =
      [true, true, true, true, true, true, true] ∧
      (ensure_visible doc7 st7 3).2 = false ∧ visAt st7 3 = false) := by
  refine ⟨?_, ?_, by decide⟩
  · intro doc s i h
    unfold ensure_visible
    rw [if_pos h]
  · intro doc s i h hd
    unfold ensure_visible
    rw [if_neg (by simp [h]), show (depth doc i).toNat = 0 by omega]
    rfl

/-- C8 amended, witnessed on a visible line of the four-line document. -/
theorem C8_amended_witness :
    ensure_visible doc4 (st0 4) 0 = (st0 4, false) :=
  C8_amended_ensure_visible.1 doc4 (st0 4) 0 (by decide)

/-- C9: unfold never sets a visibility flag to false — every line visible
before the call is still visible after it, for every document, state, line
argument, depth limit and full flag. -/
theorem C9_unfold_never_hides (doc : List Line) (s : FoldSt) (i : Nat)
    (d : Int) (full : Bool) (j : Nat) (h : visAt s j = true) :
    visAt (unfold doc s i d full).1 j = true :=
  unfold_mono doc s i d full j h

/-- C9 witnessed on the four-line document. -/
theorem C9_witness : visAt (unfold doc4 (st0 4) 1 0 false).1 3 = true :=
  C9_unfold_never_hides doc4 (st0 4) 1 0 false 3 (by decide)

/-- C10: with the default mark implementation — every mark reads false —
unfold with full = false and with full = true produce the same visibility
flag on every line. -/
theorem C10_unfold_full_irrelevant (doc : List Line) (s : FoldSt) (i : Nat)
    (d : Int) (hv : s.vis.length = doc.length)
    (hmk : ∀ j, markGet s j = false) (j : Nat) :
    visAt (unfold doc s i d false).1 j =
      visAt (unfold doc s i d true).1 j := by
  cases hr : region doc i d with
  | crash =>
    unfold Folding.unfold
    rw [hr]
  | noRegion =>
    unfold Folding.unfold
    rw [hr]
  | found rs re =>
    rw [visAt_unfold_found doc s i d false rs re hr hv (fun _ => hmk) j,
      visAt_unfold_found doc s i d true rs re hr hv (fun h => nomatch h) j]

/-- C10 witnessed on the five-line document with a fresh state. -/
theorem C10_witness :
    visAt (unfold docC6 (st0 5) 0 0 false).1 2 =
      visAt (unfold docC6 (st0 5) 0 0 true).1 2 :=
  C10_unfold_full_irrelevant docC6 (st0 5) 0 0 (by decide)
    (fun j => markGet_st0 5 j) 2

end Folding
